import Mathlib

set_option maxRecDepth 100000

/-!
Shallow embedding of the CarbCycler core (src/utils/calc.ts and
src/utils/solver.ts) in Lean 4, together with theorems settling the
frozen claims about the natural-language specification.

Modelling conventions:
* JS numbers are modelled as `ℚ`; day counts and cycle length as `ℕ`.
* `Math.round(n * 100) / 100` is `round2` below (`Math.round x = ⌊x + 1/2⌋`).
* JS `Map.get` is modelled as a function `String → Option FoodItem`.
* Fallible JS code (property access on `undefined`) is modelled with
  `Option`: a `none` result models a thrown `TypeError`.
-/

namespace CarbCycler

/-- Day category, `type DayType = 'High' | 'Medium' | 'Low'`. -/
inductive DayType where
  | High
  | Medium
  | Low
deriving DecidableEq, Repr

/-- `bodyType: 'endo' | 'ecto'`. -/
inductive BodyType where
  | endo
  | ecto
deriving DecidableEq, Repr

/-- `Record<DayType, number>`: one rational per day category. -/
structure DayShares where
  High : ℚ
  Medium : ℚ
  Low : ℚ
deriving DecidableEq, Repr

/-- The planner profile (`PlannerProfile` in src/types.ts, as used by
`calc.ts` and `App.tsx`). -/
structure PlannerProfile where
  sex : String
  weightKg : ℚ
  bodyType : BodyType
  proteinPerKg : ℚ
  ectoFatPerKg : ℚ
  cycleDays : ℕ
  nHigh : ℕ
  nMed : ℕ
  nLow : ℕ
  carbShares : DayShares
  fatShares : DayShares
  dayPlacement : List DayType
deriving DecidableEq, Repr

/-- `round2(n) = Math.round(n * 100) / 100`; JS `Math.round x = ⌊x + 0.5⌋`.
`Rat.floor` is used so the definition reduces in the kernel. -/
def round2 (n : ℚ) : ℚ := ((n * 100 + 1/2).floor : ℚ) / 100

/-- Per-category counters (a `Record<DayType, number>` holding counts). -/
structure Cnt where
  high : ℕ
  med : ℕ
  low : ℕ
deriving DecidableEq, Repr

/-- Field access of a `Cnt` by day type. -/
def Cnt.get (c : Cnt) : DayType → ℕ
  | .High => c.high
  | .Medium => c.med
  | .Low => c.low

/-- Decrement the field for `d` by one (`extras[d] -= 1`). -/
def Cnt.dec (c : Cnt) : DayType → Cnt
  | .High => { c with high := c.high - 1 }
  | .Medium => { c with med := c.med - 1 }
  | .Low => { c with low := c.low - 1 }

/-- Componentwise `max(0, a - b)` (truncated subtraction on `ℕ`). -/
def Cnt.sub (a b : Cnt) : Cnt :=
  ⟨a.high - b.high, a.med - b.med, a.low - b.low⟩

/-- Sum of the three counter fields. -/
def Cnt.total (c : Cnt) : ℕ := c.high + c.med + c.low

/-- Per-category counts of a placement list (the local `count` helper of
`normalizePlacement`). -/
def countList (l : List DayType) : Cnt :=
  ⟨(l.filter (· = DayType.High)).length,
   (l.filter (· = DayType.Medium)).length,
   (l.filter (· = DayType.Low)).length⟩

/-- `['High', 'Medium', 'Low'].find((k) => lacks[k] > 0)`. -/
def pick (lacks : Cnt) : Option DayType :=
  if 0 < lacks.high then some .High
  else if 0 < lacks.med then some .Medium
  else if 0 < lacks.low then some .Low
  else none

/-- One position of the repair scan of `normalizePlacement`: state is the
pair (extras, lacks); `d` is the category at the scanned position. -/
def repairStep (st : Cnt × Cnt) (d : DayType) : DayType × (Cnt × Cnt) :=
  if st.1.get d = 0 then (d, st)
  else
    match pick st.2 with
    | none => (d, st)
    | some t => (t, (st.1.dec d, st.2.dec t))

/-- The scan of `normalizePlacement`, which walks the array from the LAST
index down to the first: the tail of the list is processed before the
head, threading the (extras, lacks) state. -/
def repairList : List DayType → Cnt × Cnt → List DayType × (Cnt × Cnt)
  | [], st => ([], st)
  | d :: rest, st =>
    let r := repairList rest st
    let s := repairStep r.2 d
    (s.1 :: r.1, s.2)

/-- `[...placement].slice(0, cycleDays)` then `push('Low')` until the
length is `cycleDays`. -/
def padTruncate (l : List DayType) (n : ℕ) : List DayType :=
  l.take n ++ List.replicate (n - l.length) DayType.Low

/-- `normalizePlacement` from src/utils/calc.ts. -/
def normalizePlacement (profile : PlannerProfile) : List DayType :=
  let required : Cnt := ⟨profile.nHigh, profile.nMed, profile.nLow⟩
  let out := padTruncate profile.dayPlacement profile.cycleDays
  let current := countList out
  let extras := Cnt.sub current required
  let lacks := Cnt.sub required current
  (repairList out (extras, lacks)).1

/-- `validateProfile` from src/utils/calc.ts: the sequential `push`es are
modelled as list concatenation in the same order. -/
def validateProfile (profile : PlannerProfile) : List String :=
  (if profile.nHigh + profile.nMed + profile.nLow ≠ profile.cycleDays then
    ["Day counts must sum to cycle days."] else []) ++
  (let carbShareSum := profile.carbShares.High + profile.carbShares.Medium + profile.carbShares.Low
   if |carbShareSum - 1| > 1/1000000 then ["Carb shares must sum to 1.0."] else []) ++
  (let fatShareSum := profile.fatShares.High + profile.fatShares.Medium + profile.fatShares.Low
   if |fatShareSum - 1| > 1/1000000 then ["Fat shares must sum to 1.0."] else []) ++
  (let pCounts := countList profile.dayPlacement
   if pCounts.high ≠ profile.nHigh ∨ pCounts.med ≠ profile.nMed ∨ pCounts.low ≠ profile.nLow then
    ["Day placement must keep fixed counts for High/Medium/Low."] else [])

/-- The required day count of a category in a profile. -/
def dayCount (p : PlannerProfile) : DayType → ℕ
  | .High => p.nHigh
  | .Medium => p.nMed
  | .Low => p.nLow

/-- Field access of a share mapping by day type. -/
def DayShares.get (s : DayShares) : DayType → ℚ
  | .High => s.High
  | .Medium => s.Medium
  | .Low => s.Low

/-- One per-day target row (`DayTarget` in src/types.ts). -/
structure DayTarget where
  day : ℕ
  dayType : DayType
  proteinTarget : ℚ
  carbTarget : ℚ
  fatTarget : ℚ
deriving DecidableEq, Repr

/-- Return value of `calculateCycle`. -/
structure CycleResult where
  dayTargets : List DayTarget
  pDay : ℚ
  cTotal : ℚ
  fTotal : ℚ
deriving DecidableEq, Repr

/-- `calculateCycle` from src/utils/calc.ts. -/
def calculateCycle (profile : PlannerProfile) : CycleResult :=
  let carbPerKg : ℚ := if profile.bodyType = BodyType.endo then 2 else 3
  let fatPerKg : ℚ := if profile.bodyType = BodyType.endo then 4/5 else profile.ectoFatPerKg
  let pDay := profile.weightKg * profile.proteinPerKg
  let cTotal := profile.weightKg * carbPerKg * (profile.cycleDays : ℚ)
  let fTotal := profile.weightKg * fatPerKg * (profile.cycleDays : ℚ)
  let perTypeC : DayType → ℚ := fun d =>
    match d with
    | .High => if 0 < profile.nHigh then cTotal * profile.carbShares.High / (profile.nHigh : ℚ) else 0
    | .Medium => if 0 < profile.nMed then cTotal * profile.carbShares.Medium / (profile.nMed : ℚ) else 0
    | .Low => if 0 < profile.nLow then cTotal * profile.carbShares.Low / (profile.nLow : ℚ) else 0
  let perTypeF : DayType → ℚ := fun d =>
    match d with
    | .High => if 0 < profile.nHigh then fTotal * profile.fatShares.High / (profile.nHigh : ℚ) else 0
    | .Medium => if 0 < profile.nMed then fTotal * profile.fatShares.Medium / (profile.nMed : ℚ) else 0
    | .Low => if 0 < profile.nLow then fTotal * profile.fatShares.Low / (profile.nLow : ℚ) else 0
  let dayTargets : List DayTarget :=
    profile.dayPlacement.enum.map (fun p =>
      { day := p.1 + 1
        dayType := p.2
        proteinTarget := round2 pDay
        carbTarget := round2 (perTypeC p.2)
        fatTarget := round2 (perTypeF p.2) })
  { dayTargets := dayTargets
    pDay := round2 pDay
    cTotal := round2 cTotal
    fTotal := round2 fTotal }

/-- One preparation variant of a food (basis plus per-100g densities);
`kcal` is optional in the source (`v.kcal ?? 0`). -/
structure Variant where
  basis : String
  p : ℚ
  c : ℚ
  f : ℚ
  kcal : Option ℚ
deriving DecidableEq, Repr

/-- A catalog food (`FoodItem` in src/types.ts, the fields the core reads). -/
structure FoodItem where
  id : String
  category : String
  variants : List Variant
deriving DecidableEq, Repr

/-- One planned entry for a day (`DayFoodEntry`). -/
structure DayFoodEntry where
  foodId : String
  basis : String
  grams : ℚ
deriving DecidableEq, Repr

/-- Realized totals (`DayTotals`). Also used for the unrounded running sums. -/
structure DayTotals where
  kcal : ℚ
  p : ℚ
  c : ℚ
  f : ℚ
deriving DecidableEq, Repr

/-- `Map<string, FoodItem>` modelled as a lookup function. -/
def FoodsMap := String → Option FoodItem

/-- `getVariant` from src/utils/solver.ts:
`food.variants.find((v) => v.basis === basis) ?? food.variants[0]`.
When the variant list is empty, `variants[0]` is `undefined` in JS; that is
`none` here, and any later field access on it is a thrown `TypeError`. -/
def getVariant (food : FoodItem) (basis : String) : Option Variant :=
  match food.variants.find? (fun v => v.basis == basis) with
  | some v => some v
  | none => food.variants.head?

/-- The accumulation loop of `computeTotals`, carrying the four unrounded
sums. An entry whose food is missing from the map is skipped; an entry
whose food resolves but has no variant (empty variant list) makes the JS
code dereference `undefined`, modelled by `none`. -/
def computeTotalsAux (foodsMap : FoodsMap) : List DayFoodEntry → DayTotals → Option DayTotals
  | [], acc => some acc
  | e :: rest, acc =>
    match foodsMap e.foodId with
    | none => computeTotalsAux foodsMap rest acc
    | some food =>
      match getVariant food e.basis with
      | none => none
      | some v =>
        let frac := max 0 e.grams / 100
        computeTotalsAux foodsMap rest
          ⟨acc.kcal + v.kcal.getD 0 * frac, acc.p + v.p * frac,
           acc.c + v.c * frac, acc.f + v.f * frac⟩

/-- `computeTotals` from src/utils/solver.ts: accumulate, then round the
four sums once at the end. -/
def computeTotals (entries : List DayFoodEntry) (foodsMap : FoodsMap) : Option DayTotals :=
  (computeTotalsAux foodsMap entries ⟨0, 0, 0, 0⟩).map
    (fun t => ⟨round2 t.kcal, round2 t.p, round2 t.c, round2 t.f⟩)

/-- A day's macro target `{ p, c, f }`. -/
structure Target where
  p : ℚ
  c : ℚ
  f : ℚ
deriving DecidableEq, Repr

/-- `score` from src/utils/solver.ts: unweighted L1 deviation. -/
def score (target : Target) (totals : DayTotals) : ℚ :=
  |target.p - totals.p| + |target.c - totals.c| + |target.f - totals.f|

/-- In-place mutation `entries[i].grams = g(entries[i].grams)`, on the
indexed buffer modelling the shared entry objects. -/
def updateGrams (entries : List DayFoodEntry) (i : ℕ) (g : ℚ → ℚ) : List DayFoodEntry :=
  match entries.get? i with
  | none => entries
  | some e => entries.set i { e with grams := g e.grams }

/-- `entries[i].grams` (0 for an out-of-range index, never hit in the source). -/
def gramsAt (entries : List DayFoodEntry) (i : ℕ) : ℚ :=
  ((entries.get? i).map DayFoodEntry.grams).getD 0

/-- `entries.filter((e) => foodsMap.get(e.foodId)?.category === cat)`,
as the list of matching positions into the shared entry buffer. -/
def categoryIdxs (foodsMap : FoodsMap) (entries : List DayFoodEntry) (cat : String) : List ℕ :=
  (List.range entries.length).filter (fun i =>
    match (entries.get? i).bind (fun e => foodsMap e.foodId) with
    | some food => food.category == cat
    | none => false)

/-- Density of entry `e` for the macro selected by `sel`:
`getVariant(foodsMap.get(e.foodId)!, e.basis)[macro]`. `none` models the
`TypeError` when the food is absent or its variant list is empty. -/
def densityOf (foodsMap : FoodsMap) (e : DayFoodEntry) (sel : Variant → ℚ) : Option ℚ :=
  (foodsMap e.foodId).bind (fun food => (getVariant food e.basis).map sel)

/-- The `.map` of `assign` building `{ e, density }` pairs over the group,
left to right; a `TypeError` at any element aborts the whole map (`none`). -/
def ranked (foodsMap : FoodsMap) (entries : List DayFoodEntry) (sel : Variant → ℚ) :
    List ℕ → Option (List (ℕ × ℚ))
  | [] => some []
  | i :: rest =>
    (entries.get? i).bind fun e =>
      (densityOf foodsMap e sel).bind fun d =>
        (ranked foodsMap entries sel rest).map fun l => (i, d) :: l

/-- The greedy allocation loop of `assign`: walk the ranked list, adding
`max(0, (remaining / density) * 100)` grams to each entry until the
remaining need is spent (`break` when `remaining <= 0`). -/
def allocFold : List (ℕ × ℚ) → List DayFoodEntry → ℚ → List DayFoodEntry
  | [], entries, _ => entries
  | item :: rest, entries, remaining =>
    if remaining ≤ 0 then entries
    else
      let grams := max 0 (remaining / item.2 * 100)
      allocFold rest (updateGrams entries item.1 (· + grams)) (remaining - item.2 * (grams / 100))

/-- `assign` from `greedyGenerate`: skip when the group is empty or the
need is non-positive; otherwise rank the group by density for the selected
macro (descending, stable, zero densities dropped) and allocate greedily. -/
def assign (foodsMap : FoodsMap) (entries : List DayFoodEntry) (group : List ℕ)
    (sel : Variant → ℚ) (needed : ℚ) : Option (List DayFoodEntry) :=
  if group = [] ∨ needed ≤ 0 then some entries
  else
    (ranked foodsMap entries sel group).map (fun l =>
      allocFold ((l.filter (fun x => decide (0 < x.2))).mergeSort
        (fun a b => decide (b.2 ≤ a.2))) entries needed)

/-- `score(target, computeTotals(entries, foodsMap))`. -/
def scoreOf (foodsMap : FoodsMap) (target : Target) (entries : List DayFoodEntry) : Option ℚ :=
  (computeTotals entries foodsMap).map (score target)

/-- One tentative `entries[idx].grams += delta`: skipped when it would go
negative, otherwise scored against the running best `(bestScore, move)`. -/
def tryMove (foodsMap : FoodsMap) (target : Target) (entries : List DayFoodEntry)
    (best : ℚ × Option (ℕ × ℚ)) (idx : ℕ) (delta : ℚ) : Option (ℚ × Option (ℕ × ℚ)) :=
  if gramsAt entries idx + delta < 0 then some best
  else
    (scoreOf foodsMap target (updateGrams entries idx (· + delta))).map
      (fun s => if s < best.1 - 1/1000000000 then (s, some (idx, delta)) else best)

/-- The inner double loop of the local search: every index in order, `+5`
tried before `-5`. -/
def scanMoves (foodsMap : FoodsMap) (target : Target) (entries : List DayFoodEntry) :
    List ℕ → ℚ × Option (ℕ × ℚ) → Option (ℚ × Option (ℕ × ℚ))
  | [], best => some best
  | idx :: rest, best =>
    match tryMove foodsMap target entries best idx 5 with
    | none => none
    | some b1 =>
      match tryMove foodsMap target entries b1 idx (-5) with
      | none => none
      | some b2 => scanMoves foodsMap target entries rest b2

/-- `entries[bestIdx].grams = Math.max(0, entries[bestIdx].grams + bestDelta)`. -/
def applyMove (entries : List DayFoodEntry) (idx : ℕ) (delta : ℚ) : List DayFoodEntry :=
  updateGrams entries idx (fun g => max 0 (g + delta))

/-- The bounded local-search loop of `greedyGenerate`, with `fuel`
remaining iterations (1500 at the top call). Stops when the score drops
below 1 or no move improves it by more than 1e-9. -/
def searchLoop (foodsMap : FoodsMap) (target : Target) : ℕ → List DayFoodEntry → Option (List DayFoodEntry)
  | 0, entries => some entries
  | fuel + 1, entries =>
    match scoreOf foodsMap target entries with
    | none => none
    | some baseScore =>
      if baseScore < 1 then some entries
      else
        match scanMoves foodsMap target entries (List.range entries.length) (baseScore, none) with
        | none => none
        | some best =>
          match best.2 with
          | none => some entries
          | some m => searchLoop foodsMap target fuel (applyMove entries m.1 m.2)

/-- `greedyGenerate` from src/utils/solver.ts. Entry quantities are first
clamped to be non-negative (`Math.max(0, e.grams || 0)`; on `ℚ` the
`|| 0` coalescing is the identity), the three seeding passes run on the
shared buffer, then the local search, then the final per-entry rounding. -/
def greedyGenerate (selected : List DayFoodEntry) (foodsMap : FoodsMap) (target : Target) :
    Option (List DayFoodEntry) :=
  let entries := selected.map (fun e => { e with grams := max 0 e.grams })
  let proteins := categoryIdxs foodsMap entries "protein"
  let carbs := categoryIdxs foodsMap entries "carb"
  let fats := categoryIdxs foodsMap entries "fat"
  (assign foodsMap entries proteins (fun v => v.p) (target.p * (7/10))).bind (fun e1 =>
  (assign foodsMap e1 carbs (fun v => v.c) (target.c * (7/10))).bind (fun e2 =>
  (assign foodsMap e2 fats (fun v => v.f) (target.f * (7/10))).bind (fun e3 =>
  (searchLoop foodsMap target 1500 e3).map (fun e4 =>
    e4.map (fun e => { e with grams := round2 e.grams })))))

/-- Invariant of the running best `(bestScore, move)` pair during the
local-search scan against the iteration's base score: the tracked score
never exceeds the base, stays equal to it while no move is recorded, and
any recorded move was checked non-negative, scores exactly `bestScore`,
and improves on the base by more than 1e-9. -/
def bestInv (foodsMap : FoodsMap) (target : Target) (entries : List DayFoodEntry) (base : ℚ)
    (b : ℚ × Option (ℕ × ℚ)) : Prop :=
  b.1 ≤ base ∧
  (b.2 = none → b.1 = base) ∧
  (∀ i δ, b.2 = some (i, δ) →
    0 ≤ gramsAt entries i + δ ∧
    scoreOf foodsMap target (updateGrams entries i (· + δ)) = some b.1 ∧
    b.1 < base - 1/1000000000)

/-- A catalog is well formed when every food in it has at least one
variant (the data model requires "one or more variants"). -/
def wfFoods (foodsMap : FoodsMap) : Prop :=
  ∀ s food, foodsMap s = some food → food.variants ≠ []

/-- All densities (and energies) of every food in the catalog are
non-negative. -/
def nonnegFoods (foodsMap : FoodsMap) : Prop :=
  ∀ s food, foodsMap s = some food → ∀ v ∈ food.variants,
    0 ≤ v.p ∧ 0 ≤ v.c ∧ 0 ≤ v.f ∧ 0 ≤ v.kcal.getD 0

/-! ### Concrete inputs used by witnesses and counterexamples -/

/-- Count of one category in a placement list. -/
def countD (l : List DayType) (d : DayType) : ℕ := (l.filter (· = d)).length

/-- The profile of concrete scenario C: placement counts {High 3, Medium 1,
Low 1} against required {High 2, Medium 2, Low 1}. -/
def profileC : PlannerProfile :=
  { sex := "Female", weightKg := 70, bodyType := .endo, proteinPerKg := 6/5,
    ectoFatPerKg := 1, cycleDays := 5, nHigh := 2, nMed := 2, nLow := 1,
    carbShares := ⟨1/2, 7/20, 3/20⟩, fatShares := ⟨3/20, 7/20, 1/2⟩,
    dayPlacement := [.High, .High, .Medium, .High, .Low] }

/-- The profile of concrete scenario A: weight 70, endo (variant A),
protein rate 1.2, 5 cycle days, consistent placement. -/
def profileA : PlannerProfile :=
  { profileC with dayPlacement := [.High, .High, .Medium, .Medium, .Low] }

/-- A profile whose placement [High, High, High, Low, Low] has two
positions in excess of the required {High 1, Medium 2, Low 2}: the scan
reassigns the two tail-most High positions. -/
def profileT : PlannerProfile :=
  { sex := "Female", weightKg := 70, bodyType := .endo, proteinPerKg := 6/5,
    ectoFatPerKg := 1, cycleDays := 5, nHigh := 1, nMed := 2, nLow := 2,
    carbShares := ⟨1/2, 7/20, 3/20⟩, fatShares := ⟨3/20, 7/20, 1/2⟩,
    dayPlacement := [.High, .High, .High, .Low, .Low] }

/-- A protein food with a single variant: 20 g protein per 100 g. -/
def chicken : FoodItem := ⟨"f1", "protein", [⟨"raw", 20, 0, 0, none⟩]⟩

/-- Catalog holding only `chicken`. -/
def fmChicken : FoodsMap := fun s => if s = "f1" then some chicken else none

/-- A catalog food whose variant list is EMPTY (the degenerate case of C5). -/
def emptyVariantFood : FoodItem := ⟨"fe", "protein", []⟩

/-- Catalog holding only the empty-variant food. -/
def fmEmptyVariant : FoodsMap := fun s => if s = "fe" then some emptyVariantFood else none

/-- An entry of 100 g of `chicken`. -/
def chickenEntry : DayFoodEntry := ⟨"f1", "raw", 100⟩

/-- The first day target produced by `calculateCycle profileA`. -/
def dayTargetA1 : DayTarget := ⟨1, .High, 84, 175, 21⟩

/-! ### Lemmas about rounding -/

/-- `round2` agrees with the mathematical `⌊· * 100 + 1/2⌋ / 100`. -/
theorem round2_eq_intFloor (n : ℚ) : round2 n = (⌊n * 100 + 1/2⌋ : ℚ) / 100 := by
  rw [round2, Rat.floor_def, Rat.floor_def']

/-- `round2` preserves non-negativity. -/
theorem round2_nonneg {n : ℚ} (h : 0 ≤ n) : 0 ≤ round2 n := by
  rw [round2_eq_intFloor]
  have h1 : (0 : ℚ) ≤ n * 100 + 1/2 := by positivity
  have h2 : (0 : ℤ) ≤ ⌊n * 100 + 1/2⌋ := by
    exact Int.le_floor.mpr (by exact_mod_cast h1)
  have h3 : (0 : ℚ) ≤ (⌊n * 100 + 1/2⌋ : ℤ) := by exact_mod_cast h2
  exact div_nonneg h3 (by norm_num)

/-- `round2 0 = 0`. -/
theorem round2_zero : round2 0 = 0 := by
  rw [round2_eq_intFloor]
  norm_num

/-! ### Lemmas about the placement normalizer -/

theorem countList_get (l : List DayType) (d : DayType) :
    (countList l).get d = countD l d := by
  cases d <;> rfl

theorem countD_nil (d : DayType) : countD [] d = 0 := rfl

theorem countD_cons (x : DayType) (l : List DayType) (d : DayType) :
    countD (x :: l) d = countD l d + (if x = d then 1 else 0) := by
  by_cases h : x = d <;> simp [countD, List.filter_cons, h]

theorem countD_total (l : List DayType) :
    countD l .High + countD l .Medium + countD l .Low = l.length := by
  induction l with
  | nil => rfl
  | cons x t ih => cases x <;> simp [countD_cons] <;> omega

theorem Cnt.get_le_total (c : Cnt) (d : DayType) : c.get d ≤ c.total := by
  cases d <;> simp [Cnt.get, Cnt.total] <;> omega

theorem Cnt.get_dec (c : Cnt) (t d : DayType) :
    (c.dec t).get d = if t = d then c.get d - 1 else c.get d := by
  cases t <;> cases d <;> simp [Cnt.dec, Cnt.get]

theorem Cnt.total_dec (c : Cnt) (t : DayType) (h : 0 < c.get t) :
    (c.dec t).total = c.total - 1 := by
  cases t <;> simp [Cnt.dec, Cnt.total, Cnt.get] at * <;> omega

theorem Cnt.total_eq_zero {c : Cnt} (h : c.total = 0) (d : DayType) : c.get d = 0 := by
  have := c.get_le_total d
  omega

theorem pick_eq_none_iff (L : Cnt) : pick L = none ↔ L.total = 0 := by
  unfold pick Cnt.total
  split_ifs <;> simp_all <;> omega

theorem pick_some_pos {L : Cnt} {t : DayType} (h : pick L = some t) : 0 < L.get t := by
  unfold pick at h
  split_ifs at h <;> cases h <;> simp [Cnt.get] <;> omega

theorem padTruncate_length (l : List DayType) (n : ℕ) : (padTruncate l n).length = n := by
  simp [padTruncate]
  omega

theorem repairStep_of_zero {E L : Cnt} {d : DayType} (h : E.get d = 0) :
    repairStep (E, L) d = (d, (E, L)) := by
  simp [repairStep, h]

theorem repairStep_of_pick_none {E L : Cnt} {d : DayType} (h : ¬ E.get d = 0) (hp : pick L = none) :
    repairStep (E, L) d = (d, (E, L)) := by
  simp [repairStep, h, hp]

theorem repairStep_of_pick_some {E L : Cnt} {d t : DayType} (h : ¬ E.get d = 0) (hp : pick L = some t) :
    repairStep (E, L) d = (t, (E.dec d, L.dec t)) := by
  simp [repairStep, h, hp]

/-- Master invariants of the repair scan, by induction along the list
(remembering that the tail is processed before the head). -/
theorem repairList_master (l : List DayType) (E L : Cnt) :
    (repairList l (E, L)).1.length = l.length ∧
    (∀ d, ((repairList l (E, L)).2.1).get d ≤ E.get d) ∧
    (∀ d, ((repairList l (E, L)).2.2).get d ≤ L.get d) ∧
    (E.total = L.total →
      ((repairList l (E, L)).2.1).total = ((repairList l (E, L)).2.2).total ∧
      (∀ d, ((repairList l (E, L)).2.1).get d ≤ E.get d - countD l d) ∧
      (∀ d, countD (repairList l (E, L)).1 d + E.get d + ((repairList l (E, L)).2.2).get d
        = countD l d + ((repairList l (E, L)).2.1).get d + L.get d)) := by
  induction l with
  | nil =>
    refine ⟨rfl, fun d => le_refl _, fun d => le_refl _, fun hs => ⟨hs, fun d => ?_, fun d => ?_⟩⟩
    · simp [repairList, countD_nil]
    · simp [repairList, countD_nil]
  | cons d0 rest ih =>
    obtain ⟨ihlen, ihE, ihL, ihsum⟩ := ih
    set rl := (repairList rest (E, L)).1 with hrl
    set E1 := (repairList rest (E, L)).2.1 with hE1
    set L1 := (repairList rest (E, L)).2.2 with hL1
    have hstep : repairList (d0 :: rest) (E, L)
        = ((repairStep (E1, L1) d0).1 :: rl, (repairStep (E1, L1) d0).2) := rfl
    rw [hstep]
    by_cases hz : E1.get d0 = 0
    · rw [repairStep_of_zero hz]
      dsimp only
      refine ⟨by simp [ihlen], ihE, ihL, fun hs => ?_⟩
      obtain ⟨hEq, hres, hcons⟩ := ihsum hs
      refine ⟨hEq, fun d => ?_, fun d => ?_⟩
      · have h1 := hres d
        rw [countD_cons]
        by_cases hd : d0 = d
        · subst hd
          simp only [if_pos rfl]
          omega
        · simp only [if_neg hd]
          omega
      · have h2 := hcons d
        rw [countD_cons, countD_cons]
        omega
    · rcases hp : pick L1 with _ | t
      · rw [repairStep_of_pick_none hz hp]
        dsimp only
        refine ⟨by simp [ihlen], ihE, ihL, fun hs => ?_⟩
        obtain ⟨hEq, hres, hcons⟩ := ihsum hs
        have hL0 : L1.total = 0 := (pick_eq_none_iff L1).mp hp
        have : E1.get d0 = 0 := Cnt.total_eq_zero (hEq.trans hL0) d0
        exact absurd this hz
      · rw [repairStep_of_pick_some hz hp]
        dsimp only
        have ht : 0 < L1.get t := pick_some_pos hp
        have hz' : 0 < E1.get d0 := Nat.pos_of_ne_zero hz
        refine ⟨by simp [ihlen], fun d => ?_, fun d => ?_, fun hs => ?_⟩
        · have h1 := ihE d
          rw [Cnt.get_dec]
          split_ifs with h <;> [subst h; skip] <;> omega
        · have h1 := ihL d
          rw [Cnt.get_dec]
          split_ifs with h <;> [subst h; skip] <;> omega
        · obtain ⟨hEq, hres, hcons⟩ := ihsum hs
          have hEt : E1.get d0 ≤ E1.total := E1.get_le_total d0
          have hLt : L1.get t ≤ L1.total := L1.get_le_total t
          refine ⟨?_, fun d => ?_, fun d => ?_⟩
          · rw [Cnt.total_dec E1 d0 hz', Cnt.total_dec L1 t ht]
            omega
          · have h1 := hres d
            have h1' := hres d0
            clear hres hcons ihsum ihE ihL hstep
            cases d <;> cases d0 <;>
              simp_all [Cnt.get, Cnt.dec, countD_cons] <;> omega
          · have h2 := hcons d
            have h3 := ihL d
            clear hres hcons ihsum ihE ihL hstep
            cases d <;> cases d0 <;> cases t <;>
              simp_all [Cnt.get, Cnt.dec, countD_cons] <;> omega

theorem Cnt.get_sub (a b : Cnt) (d : DayType) : (Cnt.sub a b).get d = a.get d - b.get d := by
  cases d <;> rfl

theorem Cnt.total_gets (c : Cnt) : c.total = c.get .High + c.get .Medium + c.get .Low := rfl

/-- `normalizePlacement` with its `let` chain unfolded. -/
theorem normalizePlacement_eq (p : PlannerProfile) :
    normalizePlacement p =
      (repairList (padTruncate p.dayPlacement p.cycleDays)
        (Cnt.sub (countList (padTruncate p.dayPlacement p.cycleDays)) ⟨p.nHigh, p.nMed, p.nLow⟩,
         Cnt.sub ⟨p.nHigh, p.nMed, p.nLow⟩ (countList (padTruncate p.dayPlacement p.cycleDays)))).1 :=
  rfl

/-- The repair pass on a list whose counts already match leaves everything
untouched. -/
theorem repairList_zero_state (l : List DayType) :
    repairList l (⟨0, 0, 0⟩, ⟨0, 0, 0⟩) = (l, (⟨0, 0, 0⟩, ⟨0, 0, 0⟩)) := by
  induction l with
  | nil => rfl
  | cons d rest ih =>
    have hz : (⟨0, 0, 0⟩ : Cnt).get d = 0 := by cases d <;> rfl
    simp [repairList, ih, repairStep_of_zero hz]

/-- Core counting argument: when the required counts total the list
length, the repaired list realizes the required counts exactly. -/
theorem repair_counts_core (out : List DayType) (req : Cnt)
    (hsum : req.total = out.length) :
    ∀ d, countD (repairList out (Cnt.sub (countList out) req, Cnt.sub req (countList out))).1 d
      = req.get d := by
  have hget : ∀ d, (countList out).get d = countD out d := fun d => countList_get out d
  have hctot := countD_total out
  have hEL : (Cnt.sub (countList out) req).total = (Cnt.sub req (countList out)).total := by
    rw [Cnt.total_gets, Cnt.total_gets]
    rw [Cnt.get_sub, Cnt.get_sub, Cnt.get_sub, Cnt.get_sub, Cnt.get_sub, Cnt.get_sub]
    rw [hget .High, hget .Medium, hget .Low]
    rw [Cnt.total_gets] at hsum
    omega
  obtain ⟨hlen, hE', hL', hrest⟩ :=
    repairList_master out (Cnt.sub (countList out) req) (Cnt.sub req (countList out))
  obtain ⟨hEq, hres, hcons⟩ := hrest hEL
  intro d
  have h1 := hres d
  have h2 := hcons d
  rw [Cnt.get_sub, hget d] at h1
  have hzero : ((repairList out (Cnt.sub (countList out) req, Cnt.sub req (countList out))).2.1).get d = 0 := by
    omega
  have hEtot0 : ((repairList out (Cnt.sub (countList out) req, Cnt.sub req (countList out))).2.1).total = 0 := by
    rw [Cnt.total_gets]
    have ha := hres .High
    have hb := hres .Medium
    have hc := hres .Low
    rw [Cnt.get_sub, hget .High] at ha
    rw [Cnt.get_sub, hget .Medium] at hb
    rw [Cnt.get_sub, hget .Low] at hc
    omega
  have hLzero : ((repairList out (Cnt.sub (countList out) req, Cnt.sub req (countList out))).2.2).get d = 0 :=
    Cnt.total_eq_zero (hEq ▸ hEtot0) d
  rw [Cnt.get_sub, Cnt.get_sub, hget d, hzero, hLzero] at h2
  omega

/-- C2 core, stated on `normalizePlacement`. -/
theorem normalizePlacement_core (p : PlannerProfile)
    (hsum : p.nHigh + p.nMed + p.nLow = p.cycleDays) :
    (normalizePlacement p).length = p.cycleDays ∧
    ∀ d, countD (normalizePlacement p) d = (⟨p.nHigh, p.nMed, p.nLow⟩ : Cnt).get d := by
  rw [normalizePlacement_eq]
  constructor
  · have := (repairList_master (padTruncate p.dayPlacement p.cycleDays)
      (Cnt.sub (countList (padTruncate p.dayPlacement p.cycleDays)) ⟨p.nHigh, p.nMed, p.nLow⟩)
      (Cnt.sub (⟨p.nHigh, p.nMed, p.nLow⟩ : Cnt) (countList (padTruncate p.dayPlacement p.cycleDays)))).1
    rw [this, padTruncate_length]
  · apply repair_counts_core
    rw [padTruncate_length]
    simpa [Cnt.total] using hsum

/-- C2: for every profile whose required counts sum to `cycleDays` (the
counts are naturals, hence non-negative), `normalizePlacement` returns a
sequence of length exactly `cycleDays` whose per-category counts of High,
Medium and Low equal `nHigh`, `nMed`, `nLow` — for every input placement
sequence, of any length and any initial counts. -/
theorem normalizePlacement_length_and_counts (p : PlannerProfile)
    (hsum : p.nHigh + p.nMed + p.nLow = p.cycleDays) :
    (normalizePlacement p).length = p.cycleDays ∧
    countD (normalizePlacement p) .High = p.nHigh ∧
    countD (normalizePlacement p) .Medium = p.nMed ∧
    countD (normalizePlacement p) .Low = p.nLow := by
  obtain ⟨hlen, hcnt⟩ := normalizePlacement_core p hsum
  exact ⟨hlen, hcnt .High, hcnt .Medium, hcnt .Low⟩

/-- Witness for C2 at `profileC`, whose placement has the wrong counts. -/
theorem normalizePlacement_length_and_counts_witness :
    profileC.nHigh + profileC.nMed + profileC.nLow = profileC.cycleDays ∧
    ((normalizePlacement profileC).length = profileC.cycleDays ∧
     countD (normalizePlacement profileC) .High = profileC.nHigh ∧
     countD (normalizePlacement profileC) .Medium = profileC.nMed ∧
     countD (normalizePlacement profileC) .Low = profileC.nLow) :=
  ⟨by decide, normalizePlacement_length_and_counts profileC (by decide)⟩

/-- C9: `normalizePlacement` is idempotent — running it on a profile whose
placement is already the output of `normalizePlacement` for the same
counts returns that sequence unchanged. -/
theorem normalizePlacement_idempotent (p : PlannerProfile)
    (hsum : p.nHigh + p.nMed + p.nLow = p.cycleDays) :
    normalizePlacement { p with dayPlacement := normalizePlacement p } = normalizePlacement p := by
  obtain ⟨hlen, hcnt⟩ := normalizePlacement_core p hsum
  rw [normalizePlacement_eq]
  dsimp only
  have hpt : padTruncate (normalizePlacement p) p.cycleDays = normalizePlacement p := by
    unfold padTruncate
    rw [hlen, List.take_of_length_le (le_of_eq hlen)]
    simp
  rw [hpt]
  have hcl : countList (normalizePlacement p) = ⟨p.nHigh, p.nMed, p.nLow⟩ := by
    have h1 := hcnt .High
    have h2 := hcnt .Medium
    have h3 := hcnt .Low
    have : countList (normalizePlacement p)
        = ⟨countD (normalizePlacement p) .High, countD (normalizePlacement p) .Medium,
           countD (normalizePlacement p) .Low⟩ := rfl
    rw [this, h1, h2, h3]
    rfl
  rw [hcl]
  have hz : Cnt.sub ⟨p.nHigh, p.nMed, p.nLow⟩ ⟨p.nHigh, p.nMed, p.nLow⟩ = (⟨0, 0, 0⟩ : Cnt) := by
    simp [Cnt.sub]
  rw [hz, repairList_zero_state]

/-- Witness for C9 at `profileC`. -/
theorem normalizePlacement_idempotent_witness :
    profileC.nHigh + profileC.nMed + profileC.nLow = profileC.cycleDays ∧
    normalizePlacement { profileC with dayPlacement := normalizePlacement profileC }
      = normalizePlacement profileC :=
  ⟨by decide, normalizePlacement_idempotent profileC (by decide)⟩

/-- A position's category is changed by the repair scan only if its
category had positive initial excess. -/
theorem repairList_changed_pos (l : List DayType) (E L : Cnt) :
    ∀ i d, l.get? i = some d → (repairList l (E, L)).1.get? i ≠ some d → 0 < E.get d := by
  induction l with
  | nil => intro i d hi; simp at hi
  | cons d0 rest ih =>
    intro i d hi hch
    set rl := (repairList rest (E, L)).1 with hrl
    set E1 := (repairList rest (E, L)).2.1 with hE1
    set L1 := (repairList rest (E, L)).2.2 with hL1
    have hstep : repairList (d0 :: rest) (E, L)
        = ((repairStep (E1, L1) d0).1 :: rl, (repairStep (E1, L1) d0).2) := rfl
    rw [hstep] at hch
    match i with
    | 0 =>
      rw [List.get?_cons_zero] at hi hch
      have hdd : d0 = d := by simpa using hi
      subst hdd
      by_cases hz : E1.get d0 = 0
      · rw [repairStep_of_zero hz] at hch
        simp at hch
      · have hm := (repairList_master rest E L).2.1 d0
        rw [← hE1] at hm
        omega
    | Nat.succ i =>
      rw [List.get?_cons_succ] at hi hch
      exact ih i d hi hch

/-- If after the whole scan of `l` the excess of `d` is still positive and
some lack is still positive, every `d`-position of `l` was reassigned
(used with exclusive initial states, where the reassignment target can
never equal `d`). -/
theorem repairList_forces_change (l : List DayType) (E L : Cnt)
    (hx : ∀ k, E.get k = 0 ∨ L.get k = 0) (d : DayType) :
    0 < ((repairList l (E, L)).2.1).get d →
    0 < ((repairList l (E, L)).2.2).total →
    ∀ i, l.get? i = some d → (repairList l (E, L)).1.get? i ≠ some d := by
  induction l with
  | nil => intro _ _ i hi; simp at hi
  | cons d0 rest ih =>
    intro hE hL i hi
    set rl := (repairList rest (E, L)).1 with hrl
    set E1 := (repairList rest (E, L)).2.1 with hE1
    set L1 := (repairList rest (E, L)).2.2 with hL1
    have hstep : repairList (d0 :: rest) (E, L)
        = ((repairStep (E1, L1) d0).1 :: rl, (repairStep (E1, L1) d0).2) := rfl
    rw [hstep] at hE hL ⊢
    by_cases hz : E1.get d0 = 0
    · rw [repairStep_of_zero hz] at hE hL ⊢
      dsimp only at hE hL ⊢
      match i with
      | 0 =>
        rw [List.get?_cons_zero] at hi
        have hdd : d0 = d := by simpa using hi
        subst hdd
        exact absurd hz (Nat.pos_iff_ne_zero.mp hE)
      | Nat.succ i =>
        rw [List.get?_cons_succ] at hi
        rw [List.get?_cons_succ]
        exact ih hE hL i hi
    · rcases hp : pick L1 with _ | t
      · rw [repairStep_of_pick_none hz hp] at hE hL ⊢
        dsimp only at hE hL ⊢
        have h0 : L1.total = 0 := (pick_eq_none_iff L1).mp hp
        exact absurd h0 (Nat.pos_iff_ne_zero.mp hL)
      · rw [repairStep_of_pick_some hz hp] at hE hL ⊢
        dsimp only at hE hL ⊢
        have ht : 0 < L1.get t := pick_some_pos hp
        have hL1tot : 0 < L1.total := lt_of_lt_of_le ht (L1.get_le_total t)
        match i with
        | 0 =>
          rw [List.get?_cons_zero] at hi
          have hdd : d0 = d := by simpa using hi
          subst hdd
          rw [List.get?_cons_zero]
          intro hcon
          have htd : t = d0 := by simpa using hcon
          subst htd
          -- the reassignment target now equals the over-represented source;
          -- exclusivity of the initial state forbids it
          have hgd : (E1.dec t).get t = E1.get t - 1 := by
            rw [Cnt.get_dec, if_pos rfl]
          have hxe : E1.get t ≤ E.get t := (repairList_master rest E L).2.1 t
          have hxl : L1.get t ≤ L.get t := (repairList_master rest E L).2.2.1 t
          rcases hx t with h | h <;> omega
        | Nat.succ i =>
          rw [List.get?_cons_succ] at hi
          rw [List.get?_cons_succ]
          have hE1d : 0 < E1.get d := by
            have hgd := Cnt.get_dec E1 d0 d
            by_cases hdd : d0 = d
            · rw [if_pos hdd] at hgd
              omega
            · rw [if_neg hdd] at hgd
              omega
          exact ih hE1d hL1tot i hi

/-- Reassignments are taken from the tail first: if an earlier position of
some category is changed, every later position of the same category is
changed as well. -/
theorem repairList_tail_first (l : List DayType) (E L : Cnt)
    (hx : ∀ k, E.get k = 0 ∨ L.get k = 0) (d : DayType) :
    ∀ i j, i < j → l.get? i = some d → l.get? j = some d →
    (repairList l (E, L)).1.get? i ≠ some d →
    (repairList l (E, L)).1.get? j ≠ some d := by
  induction l with
  | nil => intro i j _ hi; simp at hi
  | cons d0 rest ih =>
    intro i j hij hi hj hch
    set rl := (repairList rest (E, L)).1 with hrl
    set E1 := (repairList rest (E, L)).2.1 with hE1
    set L1 := (repairList rest (E, L)).2.2 with hL1
    have hstep : repairList (d0 :: rest) (E, L)
        = ((repairStep (E1, L1) d0).1 :: rl, (repairStep (E1, L1) d0).2) := rfl
    rw [hstep] at hch ⊢
    match i, j with
    | 0, Nat.succ j =>
      rw [List.get?_cons_zero] at hi
      have hdd : d0 = d := by simpa using hi
      subst hdd
      rw [List.get?_cons_succ] at hj
      rw [List.get?_cons_succ]
      rw [List.get?_cons_zero] at hch
      by_cases hz : E1.get d0 = 0
      · rw [repairStep_of_zero hz] at hch
        simp at hch
      · rcases hp : pick L1 with _ | t
        · rw [repairStep_of_pick_none hz hp] at hch
          simp at hch
        · have ht : 0 < L1.get t := pick_some_pos hp
          have hL1tot : 0 < L1.total := lt_of_lt_of_le ht (L1.get_le_total t)
          exact repairList_forces_change rest E L hx d0
            (Nat.pos_of_ne_zero hz) hL1tot j hj
    | Nat.succ i, Nat.succ j =>
      rw [List.get?_cons_succ] at hi hj hch
      rw [List.get?_cons_succ]
      exact ih i j (Nat.succ_lt_succ_iff.mp hij) hi hj hch

/-- C8: normalization is a minimal-disruption repair. After the
truncate/right-pad step, (1) a position's category is changed only if that
category is over-represented relative to the required counts; (2)
reassignments are taken from the tail first: if an earlier position of a
category is changed, so is every later position of the same category; and
(3) concrete scenario C: the length-5 sequence [High, High, Medium, High,
Low] (counts {High 3, Medium 1, Low 1}) against required {High 2,
Medium 2, Low 1} has exactly the tail-most High position reassigned to
Medium, the other four positions unchanged. -/
theorem normalizePlacement_minimal_disruption :
    (∀ (p : PlannerProfile) (i : ℕ) (d : DayType),
        (padTruncate p.dayPlacement p.cycleDays).get? i = some d →
        (normalizePlacement p).get? i ≠ some d →
        (⟨p.nHigh, p.nMed, p.nLow⟩ : Cnt).get d
          < countD (padTruncate p.dayPlacement p.cycleDays) d) ∧
    (∀ (p : PlannerProfile) (i j : ℕ) (d : DayType), i < j →
        (padTruncate p.dayPlacement p.cycleDays).get? i = some d →
        (padTruncate p.dayPlacement p.cycleDays).get? j = some d →
        (normalizePlacement p).get? i ≠ some d →
        (normalizePlacement p).get? j ≠ some d) ∧
    (profileC.dayPlacement = [.High, .High, .Medium, .High, .Low] ∧
     normalizePlacement profileC = [.High, .High, .Medium, .Medium, .Low]) := by
  refine ⟨?_, ?_, by decide, by decide⟩
  · intro p i d h1 h2
    rw [normalizePlacement_eq] at h2
    have h3 := repairList_changed_pos (padTruncate p.dayPlacement p.cycleDays)
      (Cnt.sub (countList (padTruncate p.dayPlacement p.cycleDays)) ⟨p.nHigh, p.nMed, p.nLow⟩)
      (Cnt.sub (⟨p.nHigh, p.nMed, p.nLow⟩ : Cnt) (countList (padTruncate p.dayPlacement p.cycleDays)))
      i d h1 h2
    rw [Cnt.get_sub, countList_get] at h3
    omega
  · intro p i j d hij h1 h2 h3
    rw [normalizePlacement_eq] at h3 ⊢
    have hx : ∀ k, (Cnt.sub (countList (padTruncate p.dayPlacement p.cycleDays)) ⟨p.nHigh, p.nMed, p.nLow⟩).get k = 0 ∨
        (Cnt.sub (⟨p.nHigh, p.nMed, p.nLow⟩ : Cnt) (countList (padTruncate p.dayPlacement p.cycleDays))).get k = 0 := by
      intro k
      rw [Cnt.get_sub, Cnt.get_sub]
      omega
    exact repairList_tail_first (padTruncate p.dayPlacement p.cycleDays) _ _ hx d i j hij h1 h2 h3

/-- Witness for C8 at `profileT`: position 1 (High) was reassigned, so the
later High position 2 was reassigned as well; all hypotheses checked
concretely. -/
theorem normalizePlacement_minimal_disruption_witness :
    ((padTruncate profileT.dayPlacement profileT.cycleDays).get? 1 = some .High ∧
     (padTruncate profileT.dayPlacement profileT.cycleDays).get? 2 = some .High ∧
     (normalizePlacement profileT).get? 1 ≠ some .High) ∧
    (normalizePlacement profileT).get? 2 ≠ some .High :=
  ⟨⟨by decide, by decide, by decide⟩,
   normalizePlacement_minimal_disruption.2.1 profileT 1 2 .High (by decide)
     (by decide) (by decide) (by decide)⟩

/-- C7: `validateProfile` returns the empty list iff all four checks hold
(counts sum, carb shares within 1e-6 of 1, fat shares within 1e-6 of 1,
placement counts match), each check is evaluated independently (a profile
failing k of the four checks yields exactly k error descriptors), and the
function is pure, so it never mutates the profile. -/
theorem validateProfile_spec (p : PlannerProfile) :
    (validateProfile p = [] ↔
      (p.nHigh + p.nMed + p.nLow = p.cycleDays ∧
       |p.carbShares.High + p.carbShares.Medium + p.carbShares.Low - 1| ≤ 1/1000000 ∧
       |p.fatShares.High + p.fatShares.Medium + p.fatShares.Low - 1| ≤ 1/1000000 ∧
       countD p.dayPlacement .High = p.nHigh ∧ countD p.dayPlacement .Medium = p.nMed ∧
       countD p.dayPlacement .Low = p.nLow)) ∧
    (validateProfile p).length =
      (if p.nHigh + p.nMed + p.nLow ≠ p.cycleDays then 1 else 0) +
      (if |p.carbShares.High + p.carbShares.Medium + p.carbShares.Low - 1| > 1/1000000 then 1 else 0) +
      (if |p.fatShares.High + p.fatShares.Medium + p.fatShares.Low - 1| > 1/1000000 then 1 else 0) +
      (if countD p.dayPlacement .High ≠ p.nHigh ∨ countD p.dayPlacement .Medium ≠ p.nMed ∨
          countD p.dayPlacement .Low ≠ p.nLow then 1 else 0) := by
  have e1 : (countList p.dayPlacement).high = countD p.dayPlacement .High := rfl
  have e2 : (countList p.dayPlacement).med = countD p.dayPlacement .Medium := rfl
  have e3 : (countList p.dayPlacement).low = countD p.dayPlacement .Low := rfl
  simp only [validateProfile, e1, e2, e3]
  split_ifs <;> simp_all <;> omega

/-- C1: the target allocator computes `proteinPerDay = weight × proteinRate`
(the same value on every day of the cycle), `carbTotal = weight ×
carbPerWeight × cycleDays` and `fatTotal = weight × fatPerWeight ×
cycleDays`, where the endo body type (variant A) fixes (carbPerWeight,
fatPerWeight) = (2, 0.8) and the ecto body type (variant B) uses
carbPerWeight = 3 with fatPerWeight taken from the profile's secondary fat
rate; a category with a non-zero day count receives `(total × share) /
count` per day and a zero-count category receives 0 (no division by zero);
everything up to the 2-decimal output rounding. Concretely, weight 70,
variant A, proteinRate 1.2, cycleDays 5 gives proteinPerDay 84, carbTotal
700, fatTotal 280. -/
theorem calculateCycle_allocator :
    (∀ p : PlannerProfile,
      (calculateCycle p).pDay = round2 (p.weightKg * p.proteinPerKg) ∧
      (calculateCycle p).cTotal
        = round2 (p.weightKg * (if p.bodyType = BodyType.endo then 2 else 3) * p.cycleDays) ∧
      (calculateCycle p).fTotal
        = round2 (p.weightKg * (if p.bodyType = BodyType.endo then 4/5 else p.ectoFatPerKg) * p.cycleDays)) ∧
    (∀ (p : PlannerProfile) (dt : DayTarget), dt ∈ (calculateCycle p).dayTargets →
      dt.proteinTarget = round2 (p.weightKg * p.proteinPerKg) ∧
      dt.carbTarget = round2 (if 0 < dayCount p dt.dayType then
          p.weightKg * (if p.bodyType = BodyType.endo then 2 else 3) * p.cycleDays
            * p.carbShares.get dt.dayType / dayCount p dt.dayType
        else 0) ∧
      dt.fatTarget = round2 (if 0 < dayCount p dt.dayType then
          p.weightKg * (if p.bodyType = BodyType.endo then 4/5 else p.ectoFatPerKg) * p.cycleDays
            * p.fatShares.get dt.dayType / dayCount p dt.dayType
        else 0)) ∧
    ((calculateCycle profileA).pDay = 84 ∧
     (calculateCycle profileA).cTotal = 700 ∧
     (calculateCycle profileA).fTotal = 280) := by
  refine ⟨fun p => ⟨rfl, rfl, rfl⟩, ?_, by with_unfolding_all decide⟩
  intro p dt hdt
  simp only [calculateCycle, List.mem_map] at hdt
  obtain ⟨pair, hmem, rfl⟩ := hdt
  refine ⟨rfl, ?_, ?_⟩ <;> rcases pair with ⟨idx, dk⟩ <;> cases dk <;> rfl

/-- Witness for C1, applying the per-day clause at the first day target of
`profileA` (membership checked concretely). -/
theorem calculateCycle_allocator_witness :
    dayTargetA1 ∈ (calculateCycle profileA).dayTargets ∧
    (dayTargetA1.proteinTarget = round2 (profileA.weightKg * profileA.proteinPerKg) ∧
     dayTargetA1.carbTarget = round2 (if 0 < dayCount profileA dayTargetA1.dayType then
         profileA.weightKg * (if profileA.bodyType = BodyType.endo then 2 else 3) * profileA.cycleDays
           * profileA.carbShares.get dayTargetA1.dayType / dayCount profileA dayTargetA1.dayType
       else 0) ∧
     dayTargetA1.fatTarget = round2 (if 0 < dayCount profileA dayTargetA1.dayType then
         profileA.weightKg * (if profileA.bodyType = BodyType.endo then 4/5 else profileA.ectoFatPerKg) * profileA.cycleDays
           * profileA.fatShares.get dayTargetA1.dayType / dayCount profileA dayTargetA1.dayType
       else 0)) :=
  ⟨by with_unfolding_all decide,
   calculateCycle_allocator.2.1 profileA dayTargetA1 (by with_unfolding_all decide)⟩

/-! ### Lemmas about the totals aggregator -/

theorem getVariant_mem {food : FoodItem} {b : String} {v : Variant}
    (h : getVariant food b = some v) : v ∈ food.variants := by
  unfold getVariant at h
  rcases hf : food.variants.find? (fun w => w.basis == b) with _ | w
  · rw [hf] at h
    exact List.mem_of_mem_head? h
  · rw [hf] at h
    cases h
    exact List.mem_of_find?_eq_some hf

theorem getVariant_isSome (food : FoodItem) (b : String) (h : food.variants ≠ []) :
    (getVariant food b).isSome := by
  unfold getVariant
  rcases hf : food.variants.find? (fun v => v.basis == b) with _ | w <;> rw [hf]
  · rcases hv : food.variants with _ | ⟨x, xs⟩
    · exact absurd hv h
    · simp [hv]
  · simp

theorem getVariant_fallback (food : FoodItem) (b : String)
    (h : ∀ v ∈ food.variants, v.basis ≠ b) :
    getVariant food b = food.variants.head? := by
  unfold getVariant
  have hn : food.variants.find? (fun w => w.basis == b) = none := by
    rw [List.find?_eq_none]
    intro x hx
    simpa using h x hx
  rw [hn]

theorem computeTotalsAux_skip {fm : FoodsMap} {e : DayFoodEntry} (rest : List DayFoodEntry)
    (acc : DayTotals) (h : fm e.foodId = none) :
    computeTotalsAux fm (e :: rest) acc = computeTotalsAux fm rest acc := by
  simp [computeTotalsAux, h]

theorem computeTotalsAux_contrib {fm : FoodsMap} {e : DayFoodEntry} {food : FoodItem} {v : Variant}
    (rest : List DayFoodEntry) (acc : DayTotals)
    (hf : fm e.foodId = some food) (hv : getVariant food e.basis = some v) :
    computeTotalsAux fm (e :: rest) acc
      = computeTotalsAux fm rest
          ⟨acc.kcal + v.kcal.getD 0 * (max 0 e.grams / 100),
           acc.p + v.p * (max 0 e.grams / 100),
           acc.c + v.c * (max 0 e.grams / 100),
           acc.f + v.f * (max 0 e.grams / 100)⟩ := by
  simp [computeTotalsAux, hf, hv]

theorem computeTotalsAux_isSome {fm : FoodsMap} (hwf : wfFoods fm) :
    ∀ (entries : List DayFoodEntry) (acc : DayTotals),
      (computeTotalsAux fm entries acc).isSome := by
  intro entries
  induction entries with
  | nil => intro acc; simp [computeTotalsAux]
  | cons e rest ih =>
    intro acc
    rcases hf : fm e.foodId with _ | food
    · rw [computeTotalsAux_skip rest acc hf]
      exact ih acc
    · have hs := getVariant_isSome food e.basis (hwf _ _ hf)
      rcases hv : getVariant food e.basis with _ | v
      · rw [hv] at hs
        simp at hs
      · rw [computeTotalsAux_contrib rest acc hf hv]
        exact ih _

theorem computeTotals_isSome {fm : FoodsMap} (hwf : wfFoods fm) (entries : List DayFoodEntry) :
    (computeTotals entries fm).isSome := by
  unfold computeTotals
  have hx := computeTotalsAux_isSome hwf entries ⟨0, 0, 0, 0⟩
  rcases h : computeTotalsAux fm entries ⟨0, 0, 0, 0⟩ with _ | t
  · rw [h] at hx
    simp at hx
  · simp [h]

theorem computeTotalsAux_nonneg {fm : FoodsMap} (hnn : nonnegFoods fm) :
    ∀ (entries : List DayFoodEntry) (acc t : DayTotals),
      0 ≤ acc.kcal → 0 ≤ acc.p → 0 ≤ acc.c → 0 ≤ acc.f →
      computeTotalsAux fm entries acc = some t →
      0 ≤ t.kcal ∧ 0 ≤ t.p ∧ 0 ≤ t.c ∧ 0 ≤ t.f := by
  intro entries
  induction entries with
  | nil =>
    intro acc t h1 h2 h3 h4 ht
    simp [computeTotalsAux] at ht
    rw [← ht]
    exact ⟨h1, h2, h3, h4⟩
  | cons e rest ih =>
    intro acc t h1 h2 h3 h4 ht
    rcases hf : fm e.foodId with _ | food
    · rw [computeTotalsAux_skip rest acc hf] at ht
      exact ih acc t h1 h2 h3 h4 ht
    · rcases hv : getVariant food e.basis with _ | v
      · simp [computeTotalsAux, hf, hv] at ht
      · rw [computeTotalsAux_contrib rest acc hf hv] at ht
        obtain ⟨hp, hc, hfd, hk⟩ := hnn _ _ hf v (getVariant_mem hv)
        have hfrac : (0 : ℚ) ≤ max 0 e.grams / 100 :=
          div_nonneg (le_max_left 0 _) (by norm_num)
        refine ih ⟨acc.kcal + v.kcal.getD 0 * (max 0 e.grams / 100),
                   acc.p + v.p * (max 0 e.grams / 100),
                   acc.c + v.c * (max 0 e.grams / 100),
                   acc.f + v.f * (max 0 e.grams / 100)⟩ t ?_ ?_ ?_ ?_ ht
        · exact add_nonneg h1 (mul_nonneg hk hfrac)
        · exact add_nonneg h2 (mul_nonneg hp hfrac)
        · exact add_nonneg h3 (mul_nonneg hc hfrac)
        · exact add_nonneg h4 (mul_nonneg hfd hfrac)

/-- C6: the totals aggregator (1) silently skips entries whose food is
missing from the catalog; (2) resolves a basis with no matching variant to
the food's first variant; (3) adds `density × max(0, grams) / 100` per
macro, so with non-negative catalog densities every component of a
returned total is non-negative, and an empty entry list gives all-zero
totals; (4) rounds the four accumulated sums to 2 decimals once at the
end, not per entry. -/
theorem computeTotals_aggregator :
    (∀ (fm : FoodsMap) (e : DayFoodEntry) (rest : List DayFoodEntry) (acc : DayTotals),
        fm e.foodId = none →
        computeTotalsAux fm (e :: rest) acc = computeTotalsAux fm rest acc) ∧
    (∀ (food : FoodItem) (b : String),
        (∀ v ∈ food.variants, v.basis ≠ b) → getVariant food b = food.variants.head?) ∧
    (∀ (fm : FoodsMap) (e : DayFoodEntry) (rest : List DayFoodEntry) (acc : DayTotals)
        (food : FoodItem) (v : Variant),
        fm e.foodId = some food → getVariant food e.basis = some v →
        computeTotalsAux fm (e :: rest) acc
          = computeTotalsAux fm rest
              ⟨acc.kcal + v.kcal.getD 0 * (max 0 e.grams / 100),
               acc.p + v.p * (max 0 e.grams / 100),
               acc.c + v.c * (max 0 e.grams / 100),
               acc.f + v.f * (max 0 e.grams / 100)⟩) ∧
    (∀ (fm : FoodsMap), nonnegFoods fm →
      ∀ (entries : List DayFoodEntry) (t : DayTotals), computeTotals entries fm = some t →
        0 ≤ t.kcal ∧ 0 ≤ t.p ∧ 0 ≤ t.c ∧ 0 ≤ t.f) ∧
    (∀ fm : FoodsMap, computeTotals [] fm = some ⟨0, 0, 0, 0⟩) ∧
    (∀ (entries : List DayFoodEntry) (fm : FoodsMap),
      computeTotals entries fm
        = (computeTotalsAux fm entries ⟨0, 0, 0, 0⟩).map
            (fun t => ⟨round2 t.kcal, round2 t.p, round2 t.c, round2 t.f⟩)) := by
  refine ⟨fun fm e rest acc h => computeTotalsAux_skip rest acc h,
    fun food b h => getVariant_fallback food b h,
    fun fm e rest acc food v hf hv => computeTotalsAux_contrib rest acc hf hv,
    ?_, fun fm => by simp [computeTotals, computeTotalsAux, round2_zero], fun entries fm => rfl⟩
  intro fm hnn entries t h
  unfold computeTotals at h
  rcases ha : computeTotalsAux fm entries ⟨0, 0, 0, 0⟩ with _ | u
  · rw [ha] at h
    simp at h
  · rw [ha] at h
    simp only [Option.map_some'] at h
    obtain ⟨h1, h2, h3, h4⟩ := computeTotalsAux_nonneg hnn entries ⟨0, 0, 0, 0⟩ u
      (by norm_num) (by norm_num) (by norm_num) (by norm_num) ha
    cases h
    exact ⟨round2_nonneg h1, round2_nonneg h2, round2_nonneg h3, round2_nonneg h4⟩

/-- Witness for C6, applying the non-negativity clause at the chicken
catalog and a concrete entry. -/
theorem computeTotals_aggregator_witness :
    nonnegFoods fmChicken ∧
    computeTotals [chickenEntry] fmChicken = some ⟨0, 20, 0, 0⟩ ∧
    (0 ≤ DayTotals.kcal ⟨0, 20, 0, 0⟩ ∧ 0 ≤ DayTotals.p ⟨0, 20, 0, 0⟩ ∧
     0 ≤ DayTotals.c ⟨0, 20, 0, 0⟩ ∧ 0 ≤ DayTotals.f ⟨0, 20, 0, 0⟩) := by
  have hnn : nonnegFoods fmChicken := by
    intro s food h v hv
    unfold fmChicken at h
    split_ifs at h
    · cases h
      revert v hv
      decide
  have hev : computeTotals [chickenEntry] fmChicken = some ⟨0, 20, 0, 0⟩ := by
    with_unfolding_all decide
  exact ⟨hnn, hev, computeTotals_aggregator.2.2.2.1 fmChicken hnn [chickenEntry] ⟨0, 20, 0, 0⟩ hev⟩

/-! ### Totality of the solver on well-formed catalogs -/

theorem densityOf_isSome {fm : FoodsMap} (hwf : wfFoods fm) {e : DayFoodEntry} {food : FoodItem}
    (hf : fm e.foodId = some food) (sel : Variant → ℚ) : (densityOf fm e sel).isSome := by
  unfold densityOf
  rw [hf]
  have hs := getVariant_isSome food e.basis (hwf _ _ hf)
  rcases hv : getVariant food e.basis with _ | v
  · rw [hv] at hs
    simp at hs
  · simp [hv]

theorem categoryIdxs_mem {fm : FoodsMap} {entries : List DayFoodEntry} {cat : String} {i : ℕ}
    (h : i ∈ categoryIdxs fm entries cat) :
    ∃ e food, entries.get? i = some e ∧ fm e.foodId = some food := by
  unfold categoryIdxs at h
  rw [List.mem_filter] at h
  obtain ⟨_, hcond⟩ := h
  rcases he : entries.get? i with _ | e
  · rw [he] at hcond
    simp at hcond
  · rw [he] at hcond
    rcases hf : fm e.foodId with _ | food
    · simp [hf] at hcond
    · exact ⟨e, food, rfl, hf⟩

theorem ranked_isSome {fm : FoodsMap} (hwf : wfFoods fm) (entries : List DayFoodEntry)
    (sel : Variant → ℚ) :
    ∀ group : List ℕ,
      (∀ i ∈ group, ∃ e food, entries.get? i = some e ∧ fm e.foodId = some food) →
      (ranked fm entries sel group).isSome := by
  intro group
  induction group with
  | nil => intro _; simp [ranked]
  | cons i rest ih =>
    intro hall
    obtain ⟨e, food, he, hf⟩ := hall i (by simp)
    have hd := densityOf_isSome hwf hf sel
    rcases hdd : densityOf fm e sel with _ | d
    · rw [hdd] at hd
      simp at hd
    · have hr := ih (fun j hj => hall j (by simp [hj]))
      rcases hrr : ranked fm entries sel rest with _ | l
      · rw [hrr] at hr
        simp at hr
      · have he' : entries[i]? = some e := by
          rw [← List.get?_eq_getElem?]
          exact he
        simp [ranked, he', hdd, hrr]

theorem assign_isSome {fm : FoodsMap} (hwf : wfFoods fm) (entries : List DayFoodEntry)
    (group : List ℕ) (sel : Variant → ℚ) (needed : ℚ)
    (hg : ∀ i ∈ group, ∃ e food, entries.get? i = some e ∧ fm e.foodId = some food) :
    (assign fm entries group sel needed).isSome := by
  unfold assign
  split_ifs
  · simp
  · have hr := ranked_isSome hwf entries sel group hg
    rcases h : ranked fm entries sel group with _ | l
    · rw [h] at hr
      simp at hr
    · simp [h]

theorem scoreOf_isSome {fm : FoodsMap} (hwf : wfFoods fm) (target : Target)
    (entries : List DayFoodEntry) : (scoreOf fm target entries).isSome := by
  unfold scoreOf
  have hs := computeTotals_isSome hwf entries
  rcases h : computeTotals entries fm with _ | t
  · rw [h] at hs
    simp at hs
  · simp [h]

theorem tryMove_isSome {fm : FoodsMap} (hwf : wfFoods fm) (target : Target)
    (entries : List DayFoodEntry) (best : ℚ × Option (ℕ × ℚ)) (idx : ℕ) (delta : ℚ) :
    (tryMove fm target entries best idx delta).isSome := by
  unfold tryMove
  split_ifs
  · simp
  · simpa using scoreOf_isSome hwf target (updateGrams entries idx (· + delta))

theorem scanMoves_isSome {fm : FoodsMap} (hwf : wfFoods fm) (target : Target)
    (entries : List DayFoodEntry) :
    ∀ (idxs : List ℕ) (best : ℚ × Option (ℕ × ℚ)),
      (scanMoves fm target entries idxs best).isSome := by
  intro idxs
  induction idxs with
  | nil => intro best; simp [scanMoves]
  | cons i rest ih =>
    intro best
    have h1 := tryMove_isSome hwf target entries best i 5
    rcases ht1 : tryMove fm target entries best i 5 with _ | b1
    · rw [ht1] at h1
      simp at h1
    · have h2 := tryMove_isSome hwf target entries b1 i (-5)
      rcases ht2 : tryMove fm target entries b1 i (-5) with _ | b2
      · rw [ht2] at h2
        simp at h2
      · simpa [scanMoves, ht1, ht2] using ih b2

theorem searchLoop_isSome {fm : FoodsMap} (hwf : wfFoods fm) (target : Target) :
    ∀ (fuel : ℕ) (entries : List DayFoodEntry),
      (searchLoop fm target fuel entries).isSome := by
  intro fuel
  induction fuel with
  | zero => intro entries; simp [searchLoop]
  | succ n ih =>
    intro entries
    have hs := scoreOf_isSome hwf target entries
    rcases h : scoreOf fm target entries with _ | base
    · rw [h] at hs
      simp at hs
    · have hm := scanMoves_isSome hwf target entries (List.range entries.length) (base, none)
      rcases h2 : scanMoves fm target entries (List.range entries.length) (base, none) with _ | best
      · rw [h2] at hm
        simp at hm
      · rcases h3 : best.2 with _ | mv
        · simp [searchLoop, h, h2, h3]
        · simp only [searchLoop, h, h2, h3]
          split_ifs with hb
          · simp
          · exact ih (applyMove entries mv.1 mv.2)

/-! ### Structure preservation through the solver pipeline -/

theorem map_set_same {α β : Type _} (f : α → β) (l : List α) (i : ℕ) (a b : α)
    (h : l.get? i = some b) (hf : f a = f b) : (l.set i a).map f = l.map f := by
  rw [List.map_set]
  apply List.ext_get?
  intro n
  rw [List.get?_set]
  split_ifs with hin
  · subst hin
    rw [List.get?_map, h]
    simp [hf]
  · rfl

theorem updateGrams_shape (es : List DayFoodEntry) (i : ℕ) (g : ℚ → ℚ) :
    (updateGrams es i g).map (fun e => (e.foodId, e.basis))
      = es.map (fun e => (e.foodId, e.basis)) := by
  unfold updateGrams
  rcases h : es.get? i with _ | e
  · rfl
  · exact map_set_same _ es i _ e h rfl

theorem updateGrams_nonneg {es : List DayFoodEntry} {g : ℚ → ℚ} (i : ℕ)
    (hes : ∀ e ∈ es, 0 ≤ e.grams) (hg : ∀ q, 0 ≤ q → 0 ≤ g q) :
    ∀ e ∈ updateGrams es i g, 0 ≤ e.grams := by
  intro e he
  unfold updateGrams at he
  rcases h : es.get? i with _ | e0 <;> rw [h] at he
  · exact hes e he
  · rcases List.mem_or_eq_of_mem_set he with h1 | h1
    · exact hes e h1
    · subst h1
      exact hg _ (hes e0 (List.get?_mem h))

theorem allocFold_shape : ∀ (items : List (ℕ × ℚ)) (es : List DayFoodEntry) (r : ℚ),
    (allocFold items es r).map (fun e => (e.foodId, e.basis))
        = es.map (fun e => (e.foodId, e.basis)) ∧
      ((∀ e ∈ es, 0 ≤ e.grams) → ∀ e ∈ allocFold items es r, 0 ≤ e.grams)
  | [], es, r => ⟨rfl, fun h => h⟩
  | item :: rest, es, r => by
    unfold allocFold
    split_ifs with hr
    · exact ⟨rfl, fun h => h⟩
    · have hrec := allocFold_shape rest
        (updateGrams es item.1 (· + max 0 (r / item.2 * 100)))
        (r - item.2 * (max 0 (r / item.2 * 100) / 100))
      refine ⟨hrec.1.trans (updateGrams_shape es item.1 _), fun h => ?_⟩
      exact hrec.2 (updateGrams_nonneg item.1 h (fun q hq => add_nonneg hq (le_max_left 0 _)))

theorem assign_shape {fm : FoodsMap} {entries : List DayFoodEntry} {group : List ℕ}
    {sel : Variant → ℚ} {needed : ℚ} {out : List DayFoodEntry}
    (h : assign fm entries group sel needed = some out) :
    out.map (fun e => (e.foodId, e.basis)) = entries.map (fun e => (e.foodId, e.basis)) ∧
    ((∀ e ∈ entries, 0 ≤ e.grams) → ∀ e ∈ out, 0 ≤ e.grams) := by
  unfold assign at h
  split_ifs at h
  · cases h
    exact ⟨rfl, fun hh => hh⟩
  · rcases hr : ranked fm entries sel group with _ | l <;> rw [hr] at h
    · simp at h
    · simp only [Option.map_some'] at h
      cases h
      exact allocFold_shape _ entries needed

theorem applyMove_shape (es : List DayFoodEntry) (i : ℕ) (δ : ℚ) :
    (applyMove es i δ).map (fun e => (e.foodId, e.basis))
      = es.map (fun e => (e.foodId, e.basis)) :=
  updateGrams_shape es i _

theorem applyMove_nonneg {es : List DayFoodEntry} (i : ℕ) (δ : ℚ)
    (h : ∀ e ∈ es, 0 ≤ e.grams) : ∀ e ∈ applyMove es i δ, 0 ≤ e.grams :=
  updateGrams_nonneg i h (fun q _ => le_max_left 0 _)

theorem searchLoop_shape {fm : FoodsMap} {target : Target} :
    ∀ {fuel : ℕ} {entries out : List DayFoodEntry},
      searchLoop fm target fuel entries = some out →
      out.map (fun e => (e.foodId, e.basis)) = entries.map (fun e => (e.foodId, e.basis)) ∧
      ((∀ e ∈ entries, 0 ≤ e.grams) → ∀ e ∈ out, 0 ≤ e.grams) := by
  intro fuel
  induction fuel with
  | zero =>
    intro entries out h
    cases h
    exact ⟨rfl, fun hh => hh⟩
  | succ n ih =>
    intro entries out h
    unfold searchLoop at h
    rcases hs : scoreOf fm target entries with _ | base <;> rw [hs] at h <;> dsimp only at h
    · simp at h
    · split_ifs at h with hb
      · cases h
        exact ⟨rfl, fun hh => hh⟩
      · rcases hm : scanMoves fm target entries (List.range entries.length) (base, none)
            with _ | best <;> rw [hm] at h <;> dsimp only at h
        · simp at h
        · rcases h3 : best.2 with _ | mv <;> rw [h3] at h <;> dsimp only at h
          · cases h
            exact ⟨rfl, fun hh => hh⟩
          · have hrec := ih h
            refine ⟨hrec.1.trans (applyMove_shape entries mv.1 mv.2), fun hh => ?_⟩
            exact hrec.2 (applyMove_nonneg mv.1 mv.2 hh)

theorem shape_get? {xs ys : List DayFoodEntry}
    (h : xs.map (fun e => (e.foodId, e.basis)) = ys.map (fun e => (e.foodId, e.basis))) (i : ℕ) :
    (xs.get? i).map (fun e => (e.foodId, e.basis))
      = (ys.get? i).map (fun e => (e.foodId, e.basis)) := by
  rw [← List.get?_map, ← List.get?_map, h]

/-- Transfer the group-resolvability condition across a shape-equal list. -/
theorem group_resolves_of_shape {fm : FoodsMap} {xs ys : List DayFoodEntry} {group : List ℕ}
    (h : xs.map (fun e => (e.foodId, e.basis)) = ys.map (fun e => (e.foodId, e.basis)))
    (hg : ∀ i ∈ group, ∃ e food, ys.get? i = some e ∧ fm e.foodId = some food) :
    ∀ i ∈ group, ∃ e food, xs.get? i = some e ∧ fm e.foodId = some food := by
  intro i hi
  obtain ⟨e, food, he, hf⟩ := hg i hi
  have hh := shape_get? h i
  rw [he] at hh
  rcases hx : xs.get? i with _ | e' <;> rw [hx] at hh
  · simp at hh
  · simp only [Option.map_some'] at hh
    refine ⟨e', food, rfl, ?_⟩
    have : e'.foodId = e.foodId := by
      have := congrArg Prod.fst (Option.some.inj hh)
      simpa using this
    rw [this, hf]

/-- Group indices produced by `categoryIdxs` always resolve. -/
theorem categoryIdxs_resolves (fm : FoodsMap) (entries : List DayFoodEntry) (cat : String) :
    ∀ i ∈ categoryIdxs fm entries cat,
      ∃ e food, entries.get? i = some e ∧ fm e.foodId = some food :=
  fun _ hi => categoryIdxs_mem hi

theorem greedyGenerate_isSome {fm : FoodsMap} (hwf : wfFoods fm)
    (selected : List DayFoodEntry) (target : Target) :
    (greedyGenerate selected fm target).isSome := by
  unfold greedyGenerate
  set entries := selected.map (fun e => { e with grams := max 0 e.grams }) with hent
  have hg1 := categoryIdxs_resolves fm entries "protein"
  have ha1 := assign_isSome hwf entries (categoryIdxs fm entries "protein") (fun v => v.p)
    (target.p * (7/10)) hg1
  rcases h1 : assign fm entries (categoryIdxs fm entries "protein") (fun v => v.p)
      (target.p * (7/10)) with _ | e1
  · rw [h1] at ha1
    simp at ha1
  · have hsh1 := (assign_shape h1).1
    have hg2 := group_resolves_of_shape hsh1 (categoryIdxs_resolves fm entries "carb")
    have ha2 := assign_isSome hwf e1 (categoryIdxs fm entries "carb") (fun v => v.c)
      (target.c * (7/10)) hg2
    rcases h2 : assign fm e1 (categoryIdxs fm entries "carb") (fun v => v.c)
        (target.c * (7/10)) with _ | e2
    · rw [h2] at ha2
      simp at ha2
    · have hsh2 := (assign_shape h2).1.trans hsh1
      have hg3 := group_resolves_of_shape hsh2 (categoryIdxs_resolves fm entries "fat")
      have ha3 := assign_isSome hwf e2 (categoryIdxs fm entries "fat") (fun v => v.f)
        (target.f * (7/10)) hg3
      rcases h3 : assign fm e2 (categoryIdxs fm entries "fat") (fun v => v.f)
          (target.f * (7/10)) with _ | e3
      · rw [h3] at ha3
        simp at ha3
      · have hl := searchLoop_isSome hwf target 1500 e3
        rcases h4 : searchLoop fm target 1500 e3 with _ | e4
        · rw [h4] at hl
          simp at hl
        · simp [h1, h2, h3, h4]

/-- C5 counterexample: a plan entry whose foodId resolves to a catalog
food with an EMPTY variant list makes basis matching fail, and the
"first-variant fallback" `food.variants[0]` is `undefined` in JS; the
subsequent field access throws a TypeError (modelled by `none`) in both
the totals aggregator and the solver — not a well-defined default
output. -/
theorem core_abort_on_empty_variants :
    emptyVariantFood.variants = [] ∧
    computeTotals [⟨"fe", "raw", 50⟩] fmEmptyVariant = none ∧
    greedyGenerate [⟨"fe", "raw", 50⟩] fmEmptyVariant ⟨0, 0, 0⟩ = none := by
  refine ⟨rfl, ?_, ?_⟩ <;> with_unfolding_all decide

/-- C5 (amended): restricted to catalogs whose foods each have at least
one variant (as the data model requires), no core operation aborts: the
totals aggregator and the solver always return a value; a foodId absent
from the catalog is still silently skipped. -/
theorem core_no_abort_on_wf_catalog (fm : FoodsMap) (hwf : wfFoods fm) :
    (∀ entries : List DayFoodEntry, computeTotals entries fm ≠ none) ∧
    (∀ (entries : List DayFoodEntry) (target : Target),
      greedyGenerate entries fm target ≠ none) := by
  constructor
  · intro entries hcon
    have hx := computeTotals_isSome hwf entries
    rw [hcon] at hx
    simp at hx
  · intro entries target hcon
    have hx := greedyGenerate_isSome hwf entries target
    rw [hcon] at hx
    simp at hx

/-- Witness for the amended C5 at the chicken catalog. -/
theorem core_no_abort_on_wf_catalog_witness :
    wfFoods fmChicken ∧
    computeTotals [chickenEntry] fmChicken ≠ none ∧
    greedyGenerate [chickenEntry] fmChicken ⟨0, 0, 0⟩ ≠ none := by
  have hwf : wfFoods fmChicken := by
    intro s food h
    unfold fmChicken at h
    split_ifs at h
    · cases h
      simp [chicken]
  exact ⟨hwf, (core_no_abort_on_wf_catalog fmChicken hwf).1 [chickenEntry],
    (core_no_abort_on_wf_catalog fmChicken hwf).2 [chickenEntry] ⟨0, 0, 0⟩⟩

/-- C3: whenever the quantity solver returns, its output has the same
length and order as its input, each output entry keeps the foodId and
basis of the corresponding input entry (no foods added or removed), and
every output quantity is ≥ 0 — even when input quantities are negative. -/
theorem greedyGenerate_structure (selected : List DayFoodEntry) (fm : FoodsMap)
    (target : Target) (out : List DayFoodEntry)
    (h : greedyGenerate selected fm target = some out) :
    out.length = selected.length ∧
    out.map (fun e => (e.foodId, e.basis)) = selected.map (fun e => (e.foodId, e.basis)) ∧
    ∀ e ∈ out, 0 ≤ e.grams := by
  simp only [greedyGenerate] at h
  set entries := selected.map (fun e => { e with grams := max 0 e.grams }) with hent
  have hclamp : entries.map (fun e => (e.foodId, e.basis))
      = selected.map (fun e => (e.foodId, e.basis)) := by
    rw [hent, List.map_map]
    rfl
  have hnn0 : ∀ e ∈ entries, 0 ≤ e.grams := by
    rw [hent]
    intro e he
    rw [List.mem_map] at he
    obtain ⟨x, _, rfl⟩ := he
    exact le_max_left 0 _
  rcases h1 : assign fm entries (categoryIdxs fm entries "protein") (fun v => v.p)
      (target.p * (7/10)) with _ | e1 <;> rw [h1] at h <;> dsimp only [Option.bind] at h
  · simp at h
  · rcases h2 : assign fm e1 (categoryIdxs fm entries "carb") (fun v => v.c)
        (target.c * (7/10)) with _ | e2 <;> rw [h2] at h <;> dsimp only [Option.bind] at h
    · simp at h
    · rcases h3 : assign fm e2 (categoryIdxs fm entries "fat") (fun v => v.f)
          (target.f * (7/10)) with _ | e3 <;> rw [h3] at h <;> dsimp only [Option.bind] at h
      · simp at h
      · rcases h4 : searchLoop fm target 1500 e3 with _ | e4 <;> rw [h4] at h <;>
          dsimp only [Option.map] at h
        · simp at h
        · cases h
          have s1 := assign_shape h1
          have s2 := assign_shape h2
          have s3 := assign_shape h3
          have s4 := searchLoop_shape h4
          have hshape : (e4.map (fun e => { e with grams := round2 e.grams })).map
              (fun e => (e.foodId, e.basis)) = selected.map (fun e => (e.foodId, e.basis)) := by
            rw [List.map_map]
            have hco : ((fun e : DayFoodEntry => (e.foodId, e.basis)) ∘
                  (fun e : DayFoodEntry => { e with grams := round2 e.grams }))
                = fun e : DayFoodEntry => (e.foodId, e.basis) := rfl
            rw [hco, s4.1, s3.1, s2.1, s1.1, hclamp]
          refine ⟨?_, hshape, ?_⟩
          · have := congrArg List.length hshape
            simpa using this
          · intro e he
            rw [List.mem_map] at he
            obtain ⟨x, hx, rfl⟩ := he
            exact round2_nonneg (s4.2 (s3.2 (s2.2 (s1.2 hnn0))) x hx)

/-- Witness for C3 at a concrete solved input. -/
theorem greedyGenerate_structure_witness :
    greedyGenerate [chickenEntry] fmChicken ⟨0, 0, 0⟩ = some [⟨"f1", "raw", 0⟩] ∧
    (([⟨"f1", "raw", 0⟩] : List DayFoodEntry).length = [chickenEntry].length ∧
     ([⟨"f1", "raw", 0⟩] : List DayFoodEntry).map (fun e => (e.foodId, e.basis))
       = [chickenEntry].map (fun e => (e.foodId, e.basis)) ∧
     ∀ e ∈ ([⟨"f1", "raw", 0⟩] : List DayFoodEntry), 0 ≤ e.grams) := by
  have hev : greedyGenerate [chickenEntry] fmChicken ⟨0, 0, 0⟩ = some [⟨"f1", "raw", 0⟩] := by
    with_unfolding_all decide
  exact ⟨hev, greedyGenerate_structure [chickenEntry] fmChicken ⟨0, 0, 0⟩ [⟨"f1", "raw", 0⟩] hev⟩

/-- C4 counterexample: with the all-zero target and a 100 g chicken entry
(the clamp and rounding would leave 100 unchanged), the local-search
phase drives the quantity down to 0: the solver is NOT a no-op on an
all-zero target. -/
theorem solver_zero_target_not_noop :
    greedyGenerate [chickenEntry] fmChicken ⟨0, 0, 0⟩
      = some [{ chickenEntry with grams := 0 }] ∧
    round2 (max 0 chickenEntry.grams) = 100 := by
  constructor <;> with_unfolding_all decide

/-- C4 (amended): the solver is a no-op on an empty entry list for every
target and catalog; with an all-zero target the seeding phase adds
nothing, and the solver is a no-op (up to the initial clamp and final
rounding) whenever the clamped entries already score below the
convergence threshold 1 — in particular when every selected quantity is
zero. It is not a no-op on every zero-target input: see the
counterexample, where the local search drives a 100 g quantity to 0. -/
theorem greedyGenerate_noop_cases :
    (∀ (fm : FoodsMap) (target : Target), greedyGenerate [] fm target = some []) ∧
    (∀ (fm : FoodsMap) (entries : List DayFoodEntry) (s : ℚ),
      scoreOf fm ⟨0, 0, 0⟩ (entries.map (fun e => { e with grams := max 0 e.grams })) = some s →
      s < 1 →
      greedyGenerate entries fm ⟨0, 0, 0⟩
        = some ((entries.map (fun e => { e with grams := max 0 e.grams })).map
            (fun e => { e with grams := round2 e.grams }))) := by
  constructor
  · intro fm target
    have hnil : computeTotals [] fm = some ⟨0, 0, 0, 0⟩ := by
      simp [computeTotals, computeTotalsAux, round2_zero]
    have hscore : scoreOf fm target [] = some (score target ⟨0, 0, 0, 0⟩) := by
      simp [scoreOf, hnil]
    have hloop : searchLoop fm target 1500 [] = some [] := by
      rw [show (1500 : ℕ) = 1499 + 1 from rfl]
      unfold searchLoop
      rw [hscore]
      dsimp only
      rw [show scanMoves fm target [] (List.range (List.length ([] : List DayFoodEntry)))
            (score target ⟨0, 0, 0, 0⟩, none) = some (score target ⟨0, 0, 0, 0⟩, none) from rfl]
      dsimp only
      split_ifs <;> rfl
    simp [greedyGenerate, categoryIdxs, assign, hloop]
  · intro fm entries s hscore hs1
    simp only [greedyGenerate]
    set ents := entries.map (fun e => { e with grams := max 0 e.grams }) with hent
    have ha0 : ∀ (group : List ℕ) (sel : Variant → ℚ),
        assign fm ents group sel ((0 : ℚ) * (7/10)) = some ents := by
      intro group sel
      unfold assign
      rw [if_pos (Or.inr (by norm_num))]
    have hloop : searchLoop fm ⟨0, 0, 0⟩ 1500 ents = some ents := by
      rw [show (1500 : ℕ) = 1499 + 1 from rfl]
      unfold searchLoop
      rw [hscore]
      dsimp only
      rw [if_pos hs1]
    rw [ha0, Option.some_bind, ha0, Option.some_bind, ha0, Option.some_bind, hloop]
    rfl

/-- Witness for the amended C4 at an all-zero-quantity selection. -/
theorem greedyGenerate_noop_cases_witness :
    scoreOf fmChicken ⟨0, 0, 0⟩
        (([⟨"f1", "raw", 0⟩] : List DayFoodEntry).map (fun e => { e with grams := max 0 e.grams }))
      = some 0 ∧
    (0 : ℚ) < 1 ∧
    greedyGenerate [⟨"f1", "raw", 0⟩] fmChicken ⟨0, 0, 0⟩
      = some ((([⟨"f1", "raw", 0⟩] : List DayFoodEntry).map
            (fun e => { e with grams := max 0 e.grams })).map
          (fun e => { e with grams := round2 e.grams })) :=
  ⟨by with_unfolding_all decide, by norm_num,
   greedyGenerate_noop_cases.2 fmChicken [⟨"f1", "raw", 0⟩] 0
     (by with_unfolding_all decide) (by norm_num)⟩

/-! ### The local-search descent invariant -/

theorem bestInv_init (fm : FoodsMap) (target : Target) (entries : List DayFoodEntry)
    (base : ℚ) : bestInv fm target entries base (base, none) := by
  refine ⟨le_refl _, fun _ => rfl, fun i δ hcon => ?_⟩
  simp at hcon

theorem tryMove_inv {fm : FoodsMap} {target : Target} {entries : List DayFoodEntry}
    {base : ℚ} {b b' : ℚ × Option (ℕ × ℚ)} {idx : ℕ} {δ : ℚ}
    (hb : bestInv fm target entries base b)
    (h : tryMove fm target entries b idx δ = some b') :
    bestInv fm target entries base b' := by
  unfold tryMove at h
  split_ifs at h with hneg
  · cases h
    exact hb
  · rcases hs : scoreOf fm target (updateGrams entries idx (· + δ)) with _ | s <;> rw [hs] at h
    · simp at h
    · simp only [Option.map_some'] at h
      cases h
      split_ifs with himp
      · refine ⟨?_, fun hcon => by simp at hcon, fun i δ' hiδ => ?_⟩
        · have := hb.1
          dsimp only
          linarith
        · simp only at hiδ
          obtain ⟨rfl, rfl⟩ : i = idx ∧ δ' = δ := by
            have hh := (Option.some.inj hiδ).symm
            exact ⟨congrArg Prod.fst hh, congrArg Prod.snd hh⟩
          refine ⟨le_of_not_lt hneg, hs, ?_⟩
          have := hb.1
          dsimp only
          linarith
      · exact hb

theorem scanMoves_inv {fm : FoodsMap} {target : Target} {entries : List DayFoodEntry}
    {base : ℚ} :
    ∀ (idxs : List ℕ) {b b' : ℚ × Option (ℕ × ℚ)},
      bestInv fm target entries base b →
      scanMoves fm target entries idxs b = some b' →
      bestInv fm target entries base b' := by
  intro idxs
  induction idxs with
  | nil =>
    intro b b' hb h
    rw [scanMoves] at h
    cases h
    exact hb
  | cons i rest ih =>
    intro b b' hb h
    unfold scanMoves at h
    rcases h1 : tryMove fm target entries b i 5 with _ | b1 <;> rw [h1] at h <;> dsimp only at h
    · simp at h
    · rcases h2 : tryMove fm target entries b1 i (-5) with _ | b2 <;> rw [h2] at h <;>
        dsimp only at h
      · simp at h
      · exact ih (tryMove_inv (tryMove_inv hb h1) h2) h

/-- The clamp in an applied move is the identity when the move keeps the
quantity non-negative (which the scan checked). -/
theorem applyMove_eq_updateGrams {entries : List DayFoodEntry} {i : ℕ} {δ : ℚ}
    (h : 0 ≤ gramsAt entries i + δ) :
    applyMove entries i δ = updateGrams entries i (· + δ) := by
  unfold applyMove updateGrams
  rcases hg : entries.get? i with _ | e
  · rfl
  · have hg' : entries[i]? = some e := by
      rw [← List.get?_eq_getElem?]
      exact hg
    have hge : gramsAt entries i = e.grams := by
      simp [gramsAt, hg']
    rw [hge] at h
    dsimp only
    rw [max_eq_right h]

theorem searchLoop_score_mono {fm : FoodsMap} {target : Target} :
    ∀ (fuel : ℕ) (entries out : List DayFoodEntry) (sIn sOut : ℚ),
      searchLoop fm target fuel entries = some out →
      scoreOf fm target entries = some sIn →
      scoreOf fm target out = some sOut →
      sOut ≤ sIn := by
  intro fuel
  induction fuel with
  | zero =>
    intro entries out sIn sOut h hIn hOut
    cases h
    rw [hIn] at hOut
    cases hOut
    exact le_refl _
  | succ n ih =>
    intro entries out sIn sOut h hIn hOut
    unfold searchLoop at h
    rw [hIn] at h
    dsimp only at h
    split_ifs at h with hb
    · cases h
      rw [hIn] at hOut
      cases hOut
      exact le_refl _
    · rcases hm : scanMoves fm target entries (List.range entries.length) (sIn, none)
          with _ | best <;> rw [hm] at h <;> dsimp only at h
      · simp at h
      · rcases h3 : best.2 with _ | mv <;> rw [h3] at h <;> dsimp only at h
        · cases h
          rw [hIn] at hOut
          cases hOut
          exact le_refl _
        · have hinv := scanMoves_inv (List.range entries.length)
            (bestInv_init fm target entries sIn) hm
          obtain ⟨hle, _, hsome⟩ := hinv
          obtain ⟨hpos, hsc, hlt⟩ := hsome mv.1 mv.2 (by rw [h3])
          rw [applyMove_eq_updateGrams hpos] at h
          have hstep := ih _ out best.1 sOut h hsc hOut
          linarith

/-- C10: in the solver's local-search phase, every recorded move was
checked not to drive the chosen quantity negative, so the clamp on an
applied move is the identity; the recorded move's score improves on the
iteration's base score by more than 1e-9, so the score strictly decreases
at every applied move; consequently the score at loop exit never exceeds
the score at loop entry, for every input on which the loop returns. -/
theorem searchLoop_descent :
    (∀ (fm : FoodsMap) (target : Target) (entries : List DayFoodEntry) (base s : ℚ)
        (i : ℕ) (δ : ℚ),
      scanMoves fm target entries (List.range entries.length) (base, none) = some (s, some (i, δ)) →
      0 ≤ gramsAt entries i + δ ∧
      applyMove entries i δ = updateGrams entries i (· + δ) ∧
      scoreOf fm target (updateGrams entries i (· + δ)) = some s ∧
      s < base - 1/1000000000) ∧
    (∀ (fm : FoodsMap) (target : Target) (fuel : ℕ) (entries out : List DayFoodEntry)
        (sIn sOut : ℚ),
      searchLoop fm target fuel entries = some out →
      scoreOf fm target entries = some sIn →
      scoreOf fm target out = some sOut →
      sOut ≤ sIn) := by
  constructor
  · intro fm target entries base s i δ h
    have hinv := scanMoves_inv (List.range entries.length)
      (bestInv_init fm target entries base) h
    obtain ⟨hle, _, hsome⟩ := hinv
    obtain ⟨hpos, hsc, hlt⟩ := hsome i δ rfl
    exact ⟨hpos, applyMove_eq_updateGrams hpos, hsc, hlt⟩
  · exact fun fm target fuel entries out sIn sOut =>
      searchLoop_score_mono fuel entries out sIn sOut

/-- Witness for C10: the concrete zero-target run on 100 g of chicken
exits with score 0 from entry score 20. -/
theorem searchLoop_descent_witness :
    searchLoop fmChicken ⟨0, 0, 0⟩ 1500 [chickenEntry] = some [⟨"f1", "raw", 0⟩] ∧
    scoreOf fmChicken ⟨0, 0, 0⟩ [chickenEntry] = some 20 ∧
    scoreOf fmChicken ⟨0, 0, 0⟩ [⟨"f1", "raw", 0⟩] = some 0 ∧
    (0 : ℚ) ≤ 20 :=
  ⟨by with_unfolding_all decide, by with_unfolding_all decide, by with_unfolding_all decide,
   searchLoop_descent.2 fmChicken ⟨0, 0, 0⟩ 1500 [chickenEntry] [⟨"f1", "raw", 0⟩] 20 0
     (by with_unfolding_all decide) (by with_unfolding_all decide) (by with_unfolding_all decide)⟩

end CarbCycler
